import Mathlib

/-!
Shallow embedding of the heart-animation program in src/src/App.tsx.

The program has three parts that the development models:

* the point-field generator (the `useEffect` computing `generatedFrames`
  from the canvas dimensions), embedded as `generatedFrames`;
* the playback loop body (`render`), embedded as the pure step function
  `render` on an explicit state (last-beat timestamp, floating texts),
  together with the trigger-trace function `renderTriggers`;
* the heartbeat-sound trigger (`playHeartbeatSound`), embedded as a
  function from an optional audio context to the list of scheduled
  sound events.

JavaScript numbers are modelled as real numbers; `Math.random()` is
modelled by an ambient stream `r : ℕ → ℝ` of draws consumed in program
order, an explicit cursor into the stream replacing the hidden RNG
state.  `Math.pow(b, e)` with non-integral `e` (always applied to a
non-negative base in the source) is modelled by `Real.rpow`; the JS `%`
on numbers (remainder with the sign of the dividend) is modelled by
`jsMod` below.
-/

noncomputable section

/-- Constant `IMAGE_ENLARGE = 11` from the source. -/
def IMAGE_ENLARGE : ℝ := 11

/-- Constant `GENERATE_FRAMES = 20` from the source. -/
def GENERATE_FRAMES : ℕ := 20

/-- Constant `BPM = 70` from the source. -/
def BPM : ℝ := 70

/-- Constant `BEAT_INTERVAL = 60 / BPM` (seconds per beat) from the source. -/
def BEAT_INTERVAL : ℝ := 60 / BPM

/-- A drawable point: `interface Point { x; y; size }`.  The `size` field is
always produced by integer-valued expressions in the source, so it is
modelled as an integer. -/
structure Point where
  x : ℝ
  y : ℝ
  size : ℤ

/-- `interface FloatingText { id; x; y; opacity; scale }`. -/
structure FloatingText where
  id : ℝ
  x : ℝ
  y : ℝ
  opacity : ℝ
  scale : ℝ

/-- Generation context: the canvas dimensions together with the stream of
`Math.random()` draws. -/
structure Ctx where
  width : ℝ
  height : ℝ
  r : ℕ → ℝ

/-- `centerX = width / 2`. -/
def Ctx.cx (c : Ctx) : ℝ := c.width / 2

/-- `centerY = height / 2`. -/
def Ctx.cy (c : Ctx) : ℝ := c.height / 2

/-- `heartFunction(t)`: the parametric heart curve, scaled by
`IMAGE_ENLARGE` and translated to the canvas center. -/
def heartFunction (c : Ctx) (t : ℝ) : ℝ × ℝ :=
  let x := 17 * Real.sin t ^ 3
  let y := -(16 * Real.cos t - 5 * Real.cos (2 * t) - 3 * Real.cos (3 * t))
  (x * IMAGE_ENLARGE + c.cx, y * IMAGE_ENLARGE + c.cy)

/-- `scatterInside(x, y, beta)`: two fresh draws (at stream positions `i`
and `i+1`) give exponential-like jitters pulling the point toward the
center.  Returns the scattered point and the advanced stream cursor. -/
def scatterInside (c : Ctx) (x y beta : ℝ) (i : ℕ) : (ℝ × ℝ) × ℕ :=
  let ratioX := -beta * Real.log (c.r i)
  let ratioY := -beta * Real.log (c.r (i + 1))
  ((x - ratioX * (x - c.cx), y - ratioY * (y - c.cy)), i + 2)

/-- `shrink(x, y, ratio)` from the source: `distSq` is the squared
distance from the canvas center and `force = -1 / distSq ^ 0.6`. -/
def shrink (c : Ctx) (x y rat : ℝ) : ℝ × ℝ :=
  let distSq := (x - c.cx) ^ 2 + (y - c.cy) ^ 2
  let force := -1 / distSq ^ (0.6 : ℝ)
  (x - rat * force * (x - c.cx), y - rat * force * (y - c.cy))

/-- `curve(p) = 2 * (2 * sin(4 p)) / (2 π)`. -/
def curve (p : ℝ) : ℝ :=
  2 * (2 * Real.sin (4 * p)) / (2 * Real.pi)

/-- `calcPosition(x, y, ratio)` from the source: `distSq` is the squared
distance from the canvas center, `force = 1 / distSq ^ 0.42`, and the
two fresh draws (stream positions `i`, `i+1`) give the per-axis noise
`Math.random() * 2 - 1`.  Returns the displaced point and the advanced
stream cursor. -/
def calcPosition (c : Ctx) (x y rat : ℝ) (i : ℕ) : (ℝ × ℝ) × ℕ :=
  let distSq := (x - c.cx) ^ 2 + (y - c.cy) ^ 2
  let force := 1 / distSq ^ (0.42 : ℝ)
  let dx := rat * force * (x - c.cx) + (c.r i * 2 - 1)
  let dy := rat * force * (y - c.cy) + (c.r (i + 1) * 2 - 1)
  ((x - dx, y - dy), i + 2)

/-- The base-sampling loop: `n` heart-curve samples at parameters
`Math.random() * 2 * Math.PI`, one draw per point. -/
def genBase (c : Ctx) : ℕ → ℕ → List (ℝ × ℝ) × ℕ
  | 0, i => ([], i)
  | n + 1, i =>
    let p := heartFunction c (c.r i * (2 * Real.pi))
    let rest := genBase c n (i + 1)
    (p :: rest.1, rest.2)

/-- The inner edge-diffusion loop: three `scatterInside(bx, by, 0.05)`
variants of one base point. -/
def genEdgeTriple (c : Ctx) (q : ℝ × ℝ) (i : ℕ) : List (ℝ × ℝ) × ℕ :=
  let p1 := scatterInside c q.1 q.2 0.05 i
  let p2 := scatterInside c q.1 q.2 0.05 p1.2
  let p3 := scatterInside c q.1 q.2 0.05 p2.2
  ([p1.1, p2.1, p3.1], p3.2)

/-- `basePoints.forEach`: the edge-diffusion points, three scattered
variants per base point, in source order. -/
def genEdge (c : Ctx) : List (ℝ × ℝ) → ℕ → List (ℝ × ℝ) × ℕ
  | [], i => ([], i)
  | q :: qs, i =>
    let t3 := genEdgeTriple c q i
    let rest := genEdge c qs t3.2
    (t3.1 ++ rest.1, rest.2)

/-- The center-diffusion loop: `n` times, pick a uniformly random base
point (one draw) and scatter it with `beta = 0.27` (two draws). -/
def genCenter (c : Ctx) (bps : List (ℝ × ℝ)) : ℕ → ℕ → List (ℝ × ℝ) × ℕ
  | 0, i => ([], i)
  | n + 1, i =>
    let q := bps.getD (⌊c.r i * (bps.length : ℝ)⌋).toNat (0, 0)
    let s := scatterInside c q.1 q.2 0.27 (i + 1)
    let rest := genCenter c bps n s.2
    (s.1 :: rest.1, rest.2)

/-- `haloNumber = Math.floor(1500 + 2000 * |curve(p)|^2)` with
`p = (frame / GENERATE_FRAMES) * π`. -/
def haloNumber (frame : ℕ) : ℕ :=
  (⌊(1500 : ℝ) + 2000 * |curve ((frame : ℝ) / (GENERATE_FRAMES : ℝ) * Real.pi)| ^ 2⌋).toNat

/-- The halo loop of one frame: each point is a fresh heart-curve sample
(one draw), shrunk, jittered on both axes (two draws, each
`Math.random() * 120 - 60`), with size `1` when a fourth draw is below
`0.66` and `2` otherwise. -/
def genHalo (c : Ctx) (rad : ℝ) : ℕ → ℕ → List Point × ℕ
  | 0, i => ([], i)
  | n + 1, i =>
    let h0 := heartFunction c (c.r i * (2 * Real.pi))
    let hs := shrink c h0.1 h0.2 rad
    let px := hs.1 + (c.r (i + 1) * 120 - 60)
    let py := hs.2 + (c.r (i + 2) * 120 - 60)
    let sz : ℤ := if c.r (i + 3) < 0.66 then 1 else 2
    let rest := genHalo c rad n (i + 4)
    (⟨px, py, sz⟩ :: rest.1, rest.2)

/-- The three projection loops of one frame: every stored point is passed
through `calcPosition` (two draws) and given the random size
`Math.floor(Math.random() * m) + 1` (one draw), with `m = 3` for base
points and `m = 2` for edge/center points. -/
def genProj (c : Ctx) (rat : ℝ) (m : ℕ) : List (ℝ × ℝ) → ℕ → List Point × ℕ
  | [], i => ([], i)
  | q :: qs, i =>
    let pc := calcPosition c q.1 q.2 rat i
    let sz : ℤ := ⌊c.r pc.2 * (m : ℝ)⌋ + 1
    let rest := genProj c rat m qs (pc.2 + 1)
    (⟨pc.1.1, pc.1.2, sz⟩ :: rest.1, rest.2)

/-- One generated frame: halo points followed by the projected base,
edge-diffusion and center-diffusion points, exactly in source push
order. -/
def genFrame (c : Ctx) (bps eps cps : List (ℝ × ℝ)) (frame i : ℕ) : List Point × ℕ :=
  let p := (frame : ℝ) / (GENERATE_FRAMES : ℝ) * Real.pi
  let rat := 15 * curve p
  let rad := 4 + 6 * (1 + curve p)
  let halo := genHalo c rad (haloNumber frame) i
  let pb := genProj c rat 3 bps halo.2
  let pe := genProj c rat 2 eps pb.2
  let pcn := genProj c rat 2 cps pe.2
  (halo.1 ++ pb.1 ++ pe.1 ++ pcn.1, pcn.2)

/-- The frame loop: frames `f0, f0+1, ...`, `n` of them. -/
def genFrames (c : Ctx) (bps eps cps : List (ℝ × ℝ)) : ℕ → ℕ → ℕ → List (List Point) × ℕ
  | _, 0, i => ([], i)
  | f0, n + 1, i =>
    let fr := genFrame c bps eps cps f0 i
    let rest := genFrames c bps eps cps (f0 + 1) n fr.2
    (fr.1 :: rest.1, rest.2)

/-- The whole generator `useEffect` body: 1000 base points, 3 edge points
per base point, 5000 center points, then `GENERATE_FRAMES` frames. -/
def generatedFrames (c : Ctx) : List (List Point) :=
  let b := genBase c 1000 0
  let e := genEdge c b.1 b.2
  let cd := genCenter c b.1 5000 e.2
  (genFrames c b.1 e.1 cd.1 0 GENERATE_FRAMES cd.2).1

/-- JS `Math.trunc`-style rounding used by the JS `%` operator. -/
def jsTrunc (x : ℝ) : ℤ :=
  if 0 ≤ x then ⌊x⌋ else ⌈x⌉

/-- The JS `%` operator on numbers: remainder with the sign of the
dividend, `a - b * trunc (a / b)`. -/
def jsMod (a b : ℝ) : ℝ :=
  a - b * (jsTrunc (a / b) : ℝ)

/-- One step of a floating text: `y - 1`, `opacity - 0.01`,
`scale + 0.005`; `id` and `x` unchanged. -/
def stepText (t : FloatingText) : FloatingText :=
  ⟨t.id, t.x, t.y - 1, t.opacity - 0.01, t.scale + 0.005⟩

/-- The per-tick `setFloatingTexts` update: map `stepText` over the list,
then keep only entries with `opacity > 0`. -/
def updateTexts (l : List FloatingText) : List FloatingText :=
  (l.map stepText).filter (fun t => decide (0 < t.opacity))

/-- The observable outcome of one `render(time)` tick. -/
structure TickResult where
  drewIndex : Option ℤ
  soundFired : Bool
  newLastBeat : ℝ
  newTexts : List FloatingText

/-- The body of `render(time)`: when the frame array is empty the tick
only reschedules; otherwise it computes `seconds`, `beatProgress`, the
beat trigger, the frame index `Math.floor(beatProgress * GENERATE_FRAMES)`,
looks up the frame at `frameIndex % GENERATE_FRAMES`, and advances the
floating texts. -/
def render (frames : List (List Point)) (texts : List FloatingText)
    (time lastBeat : ℝ) : TickResult :=
  if frames.length = 0 then
    ⟨none, false, lastBeat, texts⟩
  else
    let seconds := time / 1000
    let beatProgress := jsMod seconds BEAT_INTERVAL / BEAT_INTERVAL
    let frameIndex : ℤ := ⌊beatProgress * (GENERATE_FRAMES : ℝ)⌋
    ⟨some (Int.tmod frameIndex (GENERATE_FRAMES : ℤ)),
     decide (BEAT_INTERVAL ≤ seconds - lastBeat),
     if BEAT_INTERVAL ≤ seconds - lastBeat then seconds else lastBeat,
     updateTexts texts⟩

/-- The trigger timestamps (in seconds, as stored in `lastBeatTimeRef`)
produced by running `render` over a list of tick timestamps. -/
def renderTriggers (frames : List (List Point)) :
    List FloatingText → ℝ → List ℝ → List ℝ
  | _, _, [] => []
  | texts, lastBeat, t :: ts =>
    let res := render frames texts t lastBeat
    if res.soundFired then
      t / 1000 :: renderTriggers frames res.newTexts res.newLastBeat ts
    else
      renderTriggers frames res.newTexts res.newLastBeat ts

/-- The states an `AudioContext` can be in. -/
inductive AudioState
  | running
  | suspended
  | closed

/-- The part of an `AudioContext` the sound trigger reads. -/
structure AudioCtx where
  state : AudioState
  currentTime : ℝ

/-- One scheduled oscillator burst (`createOscillator` + `createGain` +
envelope ramps + `start`/`stop`). -/
structure SoundEvent where
  freqStart : ℝ
  freqEnd : ℝ
  freqRampEnd : ℝ
  gainPeak : ℝ
  gainRampEnd : ℝ
  startTime : ℝ
  stopTime : ℝ

/-- `playHeartbeatSound`: returns the list of sound events it schedules.
When there is no audio context, or its state is not `running`, the
function returns before creating anything. -/
def playHeartbeatSound : Option AudioCtx → List SoundEvent
  | none => []
  | some ctx =>
    match ctx.state with
    | AudioState.running =>
      let now := ctx.currentTime
      [⟨60, 40, now + 0.1, 0.5, now + 0.02, now, now + 0.15⟩,
       ⟨70, 50, now + 0.15 + 0.08, 0.4, now + 0.15 + 0.02, now + 0.15, now + 0.15 + 0.1⟩]
    | _ => []

/-- The version of `calcPosition` that claim C5 describes, written from
the claim's words: the force denominator is the distance from the canvas
center (the square root of the squared distance) raised to `0.42`,
rather than the squared distance itself. -/
def calcPositionClaimed (c : Ctx) (x y rat : ℝ) (i : ℕ) : (ℝ × ℝ) × ℕ :=
  let dist := Real.sqrt ((x - c.cx) ^ 2 + (y - c.cy) ^ 2)
  let force := 1 / dist ^ (0.42 : ℝ)
  let dx := rat * force * (x - c.cx) + (c.r i * 2 - 1)
  let dy := rat * force * (y - c.cy) + (c.r (i + 1) * 2 - 1)
  ((x - dx, y - dy), i + 2)

/-- A context with the canvas center at the origin and every random draw
equal to `1/2` (so the `calcPosition` noise terms vanish). -/
def ctxHalf : Ctx := ⟨0, 0, fun _ => 1 / 2⟩

/-- A concrete context with the default dimensions of the source
(`840 × 680`) and every random draw equal to `0`. -/
def ctxZero : Ctx := ⟨840, 680, fun _ => 0⟩

end

/-! ### Length lemmas for the generator -/

theorem genBase_length (c : Ctx) : ∀ n i, (genBase c n i).1.length = n := by
  intro n
  induction n with
  | zero => intro i; simp [genBase]
  | succ n ih => intro i; simp [genBase, ih]

theorem genEdgeTriple_length (c : Ctx) (q : ℝ × ℝ) (i : ℕ) :
    (genEdgeTriple c q i).1.length = 3 := by
  simp [genEdgeTriple]

theorem genEdge_length (c : Ctx) : ∀ (qs : List (ℝ × ℝ)) (i : ℕ),
    (genEdge c qs i).1.length = 3 * qs.length := by
  intro qs
  induction qs with
  | nil => intro i; simp [genEdge]
  | cons q qs ih =>
    intro i
    simp [genEdge, genEdgeTriple, ih]
    ring

theorem genCenter_length (c : Ctx) (bps : List (ℝ × ℝ)) :
    ∀ n i, (genCenter c bps n i).1.length = n := by
  intro n
  induction n with
  | zero => intro i; simp [genCenter]
  | succ n ih => intro i; simp [genCenter, ih]

theorem genHalo_length (c : Ctx) (rad : ℝ) :
    ∀ n i, (genHalo c rad n i).1.length = n := by
  intro n
  induction n with
  | zero => intro i; simp [genHalo]
  | succ n ih => intro i; simp [genHalo, ih]

theorem genProj_length (c : Ctx) (rat : ℝ) (m : ℕ) :
    ∀ (qs : List (ℝ × ℝ)) (i : ℕ), (genProj c rat m qs i).1.length = qs.length := by
  intro qs
  induction qs with
  | nil => intro i; simp [genProj]
  | cons q qs ih => intro i; simp [genProj, ih]

theorem genFrame_length (c : Ctx) (bps eps cps : List (ℝ × ℝ)) (frame i : ℕ) :
    (genFrame c bps eps cps frame i).1.length =
      haloNumber frame + (bps.length + eps.length + cps.length) := by
  simp [genFrame, genHalo_length, genProj_length]
  ring

theorem genFrames_map_length (c : Ctx) (bps eps cps : List (ℝ × ℝ)) :
    ∀ (n f0 i : ℕ),
      ((genFrames c bps eps cps f0 n i).1).map List.length =
        (List.range n).map
          (fun k => haloNumber (f0 + k) + (bps.length + eps.length + cps.length)) := by
  intro n
  induction n with
  | zero => intro f0 i; simp [genFrames]
  | succ n ih =>
    intro f0 i
    rw [List.range_succ_eq_map]
    simp only [genFrames, List.map_cons, List.map_map, List.length_cons]
    rw [genFrame_length, ih]
    simp only [Nat.add_zero, List.map_map]
    refine congrArg _ ?_
    refine List.map_congr_left ?_
    intro k _
    simp only [Function.comp]
    congr 2
    omega

theorem generatedFrames_map_length (c : Ctx) :
    (generatedFrames c).map List.length =
      (List.range GENERATE_FRAMES).map (fun k => haloNumber k + 9000) := by
  simp only [generatedFrames]
  rw [genFrames_map_length]
  refine List.map_congr_left ?_
  intro k _
  rw [genBase_length, genEdge_length, genBase_length, genCenter_length]
  norm_num

theorem generatedFrames_length (c : Ctx) : (generatedFrames c).length = 20 := by
  have h := congrArg List.length (generatedFrames_map_length c)
  simpa [GENERATE_FRAMES] using h

/-! ### Membership and size lemmas for the generator -/

theorem genHalo_sizes (c : Ctx) (rad : ℝ) :
    ∀ (n i : ℕ) (pt : Point), pt ∈ (genHalo c rad n i).1 →
      pt.size = 1 ∨ pt.size = 2 := by
  intro n
  induction n with
  | zero => intro i pt h; simp [genHalo] at h
  | succ n ih =>
    intro i pt h
    simp only [genHalo, List.mem_cons] at h
    rcases h with h | h
    · rw [h]
      by_cases hc : c.r (i + 3) < 0.66 <;> simp [hc]
    · exact ih _ _ h

theorem genProj_sizes (c : Ctx) (hr : ∀ m, 0 ≤ c.r m ∧ c.r m < 1) (rat : ℝ)
    (m : ℕ) (hm : 0 < m) :
    ∀ (qs : List (ℝ × ℝ)) (i : ℕ) (pt : Point), pt ∈ (genProj c rat m qs i).1 →
      1 ≤ pt.size ∧ pt.size ≤ (m : ℤ) := by
  intro qs
  induction qs with
  | nil => intro i pt h; simp [genProj] at h
  | cons q qs ih =>
    intro i pt h
    simp only [genProj, List.mem_cons] at h
    rcases h with h | h
    · rw [h]
      obtain ⟨h0, h1⟩ := hr ((calcPosition c q.1 q.2 rat i).2)
      have hfl0 : (0 : ℤ) ≤ ⌊c.r ((calcPosition c q.1 q.2 rat i).2) * (m : ℝ)⌋ :=
        Int.floor_nonneg.mpr (mul_nonneg h0 (by positivity))

      have hflm : ⌊c.r ((calcPosition c q.1 q.2 rat i).2) * (m : ℝ)⌋ < (m : ℤ) := by
        apply Int.floor_lt.mpr
        push_cast
        calc c.r ((calcPosition c q.1 q.2 rat i).2) * (m : ℝ)
            < 1 * (m : ℝ) := by
              apply mul_lt_mul_of_pos_right h1
              exact_mod_cast hm
          _ = (m : ℝ) := one_mul _
      constructor
      · simpa using hfl0
      · simp only [Point.mk.injEq]
        omega
    · exact ih _ _ h

theorem genFrame_sizes (c : Ctx) (hr : ∀ m, 0 ≤ c.r m ∧ c.r m < 1)
    (bps eps cps : List (ℝ × ℝ)) (frame i : ℕ) :
    ∀ pt ∈ (genFrame c bps eps cps frame i).1,
      pt.size = 1 ∨ pt.size = 2 ∨ pt.size = 3 := by
  intro pt h
  simp only [genFrame, List.mem_append] at h
  rcases h with ((h | h) | h) | h
  · rcases genHalo_sizes c _ _ _ pt h with h2 | h2 <;> omega
  · have h2 := genProj_sizes c hr _ 3 (by norm_num) _ _ pt h
    omega
  · have h2 := genProj_sizes c hr _ 2 (by norm_num) _ _ pt h
    omega
  · have h2 := genProj_sizes c hr _ 2 (by norm_num) _ _ pt h
    omega

theorem genFrames_mem (c : Ctx) (bps eps cps : List (ℝ × ℝ)) :
    ∀ (n f0 i : ℕ) (fr : List Point), fr ∈ (genFrames c bps eps cps f0 n i).1 →
      ∃ f j, fr = (genFrame c bps eps cps f j).1 := by
  intro n
  induction n with
  | zero => intro f0 i fr h; simp [genFrames] at h
  | succ n ih =>
    intro f0 i fr h
    simp only [genFrames, List.mem_cons] at h
    rcases h with h | h
    · exact ⟨f0, i, h⟩
    · exact ih _ _ _ h

/-! ### Claims C1 and C2: shape of the generated frame sequence -/

/-- C1: for every positive canvas width and height, one run of the
point-field generator produces exactly 20 frames (`GENERATE_FRAMES`),
and every frame is a non-empty list of points whose `size` field is an
integer in `{1, 2, 3}`. -/
theorem claim_c1 (c : Ctx) (hw : 0 < c.width) (hh : 0 < c.height)
    (hr : ∀ m, 0 ≤ c.r m ∧ c.r m < 1) :
    (generatedFrames c).length = GENERATE_FRAMES ∧ GENERATE_FRAMES = 20 ∧
      ∀ fr ∈ generatedFrames c, fr ≠ [] ∧
        ∀ pt ∈ fr, pt.size = 1 ∨ pt.size = 2 ∨ pt.size = 3 := by
  refine ⟨by simpa [GENERATE_FRAMES] using generatedFrames_length c, rfl, ?_⟩
  intro fr hfr
  simp only [generatedFrames] at hfr
  obtain ⟨f, j, hfj⟩ := genFrames_mem c _ _ _ _ _ _ fr hfr
  constructor
  · rw [hfj]
    have hlen := genFrame_length c ((genBase c 1000 0).1)
      ((genEdge c (genBase c 1000 0).1 (genBase c 1000 0).2).1)
      ((genCenter c (genBase c 1000 0).1 5000
        (genEdge c (genBase c 1000 0).1 (genBase c 1000 0).2).2).1) f j
    rw [genBase_length, genEdge_length, genBase_length, genCenter_length] at hlen
    have hpos : 0 < ((genFrame c ((genBase c 1000 0).1)
        ((genEdge c (genBase c 1000 0).1 (genBase c 1000 0).2).1)
        ((genCenter c (genBase c 1000 0).1 5000
          (genEdge c (genBase c 1000 0).1 (genBase c 1000 0).2).2).1) f j).1).length := by
      rw [hlen]; omega
    exact List.length_pos.mp hpos
  · intro pt hpt
    rw [hfj] at hpt
    exact genFrame_sizes c hr _ _ _ f j pt hpt

/-- C1 witness: the theorem applied at the source's default dimensions
`840 × 680` and the all-zero random stream. -/
theorem claim_c1_witness :
    ((0 : ℝ) < ctxZero.width) ∧ ((0 : ℝ) < ctxZero.height) ∧
      (∀ m, 0 ≤ ctxZero.r m ∧ ctxZero.r m < 1) ∧
      ((generatedFrames ctxZero).length = GENERATE_FRAMES ∧ GENERATE_FRAMES = 20 ∧
        ∀ fr ∈ generatedFrames ctxZero, fr ≠ [] ∧
          ∀ pt ∈ fr, pt.size = 1 ∨ pt.size = 2 ∨ pt.size = 3) :=
  ⟨by norm_num [ctxZero], by norm_num [ctxZero],
   fun m => ⟨le_rfl, one_pos⟩,
   claim_c1 ctxZero (by norm_num [ctxZero]) (by norm_num [ctxZero])
     (fun m => ⟨le_rfl, one_pos⟩)⟩

/-- C2: for every canvas dimensions and every random draw, the per-frame
point count is the deterministic function
`haloNumber frame + 1000 + 3000 + 5000` of the frame index: the list of
per-frame point counts equals the list of these values for
`frame = 0, …, 19`, for every random stream. -/
theorem claim_c2 (c : Ctx) :
    (generatedFrames c).map List.length =
      (List.range GENERATE_FRAMES).map (fun frame => haloNumber frame + (1000 + 3000 + 5000)) := by
  simpa using generatedFrames_map_length c

/-! ### Claims C3 and C9: frame selection in the playback loop -/

/-- C3: the frame index drawn by the playback loop is determined by the
tick timestamp alone.  Two ticks with the same timestamp select the same
frame regardless of the floating-text state and of the last-beat timer,
and the selected index equals
`floor(((time/1000) mod BEAT_INTERVAL)/BEAT_INTERVAL * 20) mod 20`,
with `BEAT_INTERVAL = 60/70` exactly. -/
theorem claim_c3 (frames : List (List Point)) (texts1 texts2 : List FloatingText)
    (time lb1 lb2 : ℝ) (hf : frames ≠ []) :
    (render frames texts1 time lb1).drewIndex = (render frames texts2 time lb2).drewIndex ∧
    (render frames texts1 time lb1).drewIndex =
      some (Int.tmod ⌊jsMod (time / 1000) BEAT_INTERVAL / BEAT_INTERVAL * (20 : ℝ)⌋ 20) ∧
    BEAT_INTERVAL = 60 / 70 := by
  have hlen : ¬frames.length = 0 := by
    simpa [List.length_eq_zero] using hf
  refine ⟨?_, ?_, ?_⟩
  · simp [render, hlen]
  · simp [render, hlen, GENERATE_FRAMES]
  · norm_num [BEAT_INTERVAL, BPM]

/-- C3 witness: the theorem at a concrete one-frame array, timestamp `0`,
and two different last-beat/overlay states. -/
theorem claim_c3_witness :
    ([[(⟨0, 0, 1⟩ : Point)]] ≠ ([] : List (List Point))) ∧
    ((render [[(⟨0, 0, 1⟩ : Point)]] [] 0 0).drewIndex =
        (render [[(⟨0, 0, 1⟩ : Point)]] [⟨0, 0, 0, 1, 1⟩] 0 7).drewIndex ∧
      (render [[(⟨0, 0, 1⟩ : Point)]] [] 0 0).drewIndex =
        some (Int.tmod ⌊jsMod ((0 : ℝ) / 1000) BEAT_INTERVAL / BEAT_INTERVAL * (20 : ℝ)⌋ 20) ∧
      BEAT_INTERVAL = 60 / 70) :=
  ⟨by simp, claim_c3 [[(⟨0, 0, 1⟩ : Point)]] [] [⟨0, 0, 0, 1, 1⟩] 0 0 7 (by simp)⟩

/-- For non-negative timestamps the computed frame index
`⌊beatProgress * 20⌋` lies in `[0, 20)`. -/
theorem frameIndex_bounds (time : ℝ) (ht : 0 ≤ time) :
    0 ≤ ⌊jsMod (time / 1000) BEAT_INTERVAL / BEAT_INTERVAL * ((GENERATE_FRAMES : ℕ) : ℝ)⌋ ∧
    ⌊jsMod (time / 1000) BEAT_INTERVAL / BEAT_INTERVAL * ((GENERATE_FRAMES : ℕ) : ℝ)⌋ < 20 := by
  have hB : (0 : ℝ) < BEAT_INTERVAL := by norm_num [BEAT_INTERVAL, BPM]
  have hs : 0 ≤ time / 1000 := by positivity
  have htr : jsTrunc (time / 1000 / BEAT_INTERVAL) = ⌊time / 1000 / BEAT_INTERVAL⌋ := by
    rw [jsTrunc, if_pos (by positivity)]
  have hbp : jsMod (time / 1000) BEAT_INTERVAL / BEAT_INTERVAL =
      Int.fract (time / 1000 / BEAT_INTERVAL) := by
    rw [jsMod, htr, Int.fract]
    field_simp
    ring
  simp only [GENERATE_FRAMES, Nat.cast_ofNat, hbp]
  constructor
  · exact Int.floor_nonneg.mpr
      (mul_nonneg (Int.fract_nonneg _) (by norm_num))
  · apply Int.floor_lt.mpr
    push_cast
    nlinarith [Int.fract_lt_one (time / 1000 / BEAT_INTERVAL),
      Int.fract_nonneg (time / 1000 / BEAT_INTERVAL)]

/-- C9: for every non-negative tick timestamp, the generated frame
sequence has exactly 20 entries and the frame index computed by the
playback loop lies in `[0, 19]`, so the frame-array lookup is in bounds;
when the frame sequence is empty, the tick changes nothing and reads no
frame. -/
theorem claim_c9 (c : Ctx) (texts : List FloatingText) (time lb : ℝ) (ht : 0 ≤ time) :
    (generatedFrames c).length = 20 ∧
    (∃ k : ℤ, (render (generatedFrames c) texts time lb).drewIndex = some k ∧
      0 ≤ k ∧ k < 20 ∧ k.toNat < (generatedFrames c).length) ∧
    (∀ (texts2 : List FloatingText) (lb2 : ℝ),
      render [] texts2 time lb2 = ⟨none, false, lb2, texts2⟩) := by
  have hlen := generatedFrames_length c
  obtain ⟨h0, h20⟩ := frameIndex_bounds time ht
  refine ⟨hlen, ?_, ?_⟩
  · refine ⟨⌊jsMod (time / 1000) BEAT_INTERVAL / BEAT_INTERVAL * ((GENERATE_FRAMES : ℕ) : ℝ)⌋,
      ?_, h0, h20, ?_⟩
    · have hne : ¬(generatedFrames c).length = 0 := by omega
      simp only [render, hne, if_false]
      rw [Int.tmod_eq_of_lt h0 (by simpa [GENERATE_FRAMES] using h20)]
    · rw [hlen]
      omega
  · intro texts2 lb2
    simp [render]

/-- C9 witness: the theorem at the concrete context `ctxZero`, empty
overlay list, timestamp `0` and last-beat time `0`. -/
theorem claim_c9_witness :
    ((0 : ℝ) ≤ 0) ∧
    ((generatedFrames ctxZero).length = 20 ∧
      (∃ k : ℤ, (render (generatedFrames ctxZero) [] 0 0).drewIndex = some k ∧
        0 ≤ k ∧ k < 20 ∧ k.toNat < (generatedFrames ctxZero).length) ∧
      (∀ (texts2 : List FloatingText) (lb2 : ℝ),
        render [] texts2 0 lb2 = ⟨none, false, lb2, texts2⟩)) :=
  ⟨le_rfl, claim_c9 ctxZero [] 0 0 le_rfl⟩

/-! ### Claim C4: no double-fire of the beat trigger -/

/-- When the frame array is non-empty, one `render` tick fires the beat
sound exactly when `BEAT_INTERVAL ≤ time/1000 - lastBeat`, and then
records `time/1000` as the new last-beat time. -/
theorem render_beat (frames : List (List Point)) (texts : List FloatingText)
    (time lb : ℝ) (hf : frames ≠ []) :
    (render frames texts time lb).soundFired = decide (BEAT_INTERVAL ≤ time / 1000 - lb) ∧
    (render frames texts time lb).newLastBeat =
      (if BEAT_INTERVAL ≤ time / 1000 - lb then time / 1000 else lb) ∧
    (render frames texts time lb).newTexts = updateTexts texts := by
  have hlen : ¬frames.length = 0 := by simpa [List.length_eq_zero] using hf
  refine ⟨?_, ?_, ?_⟩ <;> simp [render, hlen]

/-- Every trigger timestamp in a trace starting from last-beat time `lb`
is at least `lb + BEAT_INTERVAL`, and any two consecutive trigger
timestamps are at least `BEAT_INTERVAL` apart. -/
theorem renderTriggers_spec (frames : List (List Point)) (hf : frames ≠ []) :
    ∀ (ts : List ℝ) (texts : List FloatingText) (lb : ℝ),
      (∀ s ∈ renderTriggers frames texts lb ts, lb + BEAT_INTERVAL ≤ s) ∧
      List.Chain' (fun a b => BEAT_INTERVAL ≤ b - a) (renderTriggers frames texts lb ts) := by
  have hB : (0 : ℝ) < BEAT_INTERVAL := by norm_num [BEAT_INTERVAL, BPM]
  intro ts
  induction ts with
  | nil => intro texts lb; simp [renderTriggers]
  | cons t ts ih =>
    intro texts lb
    obtain ⟨hfire, hlb, htx⟩ := render_beat frames texts t lb hf
    rcases le_or_lt BEAT_INTERVAL (t / 1000 - lb) with hle | hlt
    · have hstep : renderTriggers frames texts lb (t :: ts) =
          t / 1000 :: renderTriggers frames (updateTexts texts) (t / 1000) ts := by
        rw [renderTriggers, hfire, htx, hlb, if_pos hle, if_pos (by simpa using hle)]
      obtain ⟨ihmem, ihchain⟩ := ih (updateTexts texts) (t / 1000)
      rw [hstep]
      constructor
      · intro s hs
        rcases List.mem_cons.mp hs with h | h
        · rw [h]; linarith
        · have := ihmem s h; linarith
      · rw [List.chain'_cons']
        refine ⟨?_, ihchain⟩
        intro y hy
        have hmem : y ∈ renderTriggers frames (updateTexts texts) (t / 1000) ts :=
          List.mem_of_mem_head? hy
        have := ihmem y hmem
        linarith
    · have hstep : renderTriggers frames texts lb (t :: ts) =
          renderTriggers frames (updateTexts texts) lb ts := by
        rw [renderTriggers, hfire, htx, hlb, if_neg (not_le.mpr hlt),
          if_neg (by simpa using not_le.mpr hlt)]
      obtain ⟨ihmem, ihchain⟩ := ih (updateTexts texts) lb
      rw [hstep]
      exact ⟨ihmem, ihchain⟩

/-- C4: over any run of render ticks with monotonically increasing
timestamps (and a non-empty frame array, so the beat check is reached),
the beat-sound trigger fires at most once per beat interval: consecutive
trigger timestamps (in seconds) differ by at least
`BEAT_INTERVAL = 60/70`. -/
theorem claim_c4 (frames : List (List Point)) (texts : List FloatingText)
    (lb : ℝ) (ts : List ℝ) (hf : frames ≠ [])
    (hmono : List.Chain' (fun a b : ℝ => a < b) ts) :
    List.Chain' (fun a b => BEAT_INTERVAL ≤ b - a) (renderTriggers frames texts lb ts) :=
  (renderTriggers_spec frames hf ts texts lb).2

/-- C4 witness: a one-frame array and the strictly increasing tick
timestamps `0 ms, 900 ms`. -/
theorem claim_c4_witness :
    ([[(⟨0, 0, 1⟩ : Point)]] ≠ ([] : List (List Point))) ∧
    List.Chain' (fun a b : ℝ => a < b) [0, 900] ∧
    List.Chain' (fun a b => BEAT_INTERVAL ≤ b - a)
      (renderTriggers [[(⟨0, 0, 1⟩ : Point)]] [] 0 [0, 900]) :=
  ⟨by simp, by simp,
   claim_c4 [[(⟨0, 0, 1⟩ : Point)]] [] 0 [0, 900] (by simp) (by simp)⟩

/-! ### Claims C7 and C10: floating-text decay and overlay invariant -/

/-- Closed form for the surviving text: for `k ≤ 99` steps the single
entry created with opacity 1 and scale 1 is still present with
`opacity = 1 - 0.01 k`, `scale = 1 + 0.005 k`, `y = y0 - k`. -/
theorem updateTexts_iterate (id0 x0 y0 : ℝ) :
    ∀ k : ℕ, k ≤ 99 →
      updateTexts^[k] [⟨id0, x0, y0, 1, 1⟩] =
        [⟨id0, x0, y0 - (k : ℝ), 1 - 0.01 * (k : ℝ), 1 + 0.005 * (k : ℝ)⟩] := by
  intro k
  induction k with
  | zero =>
    intro _
    simp only [Function.iterate_zero, id_eq, Nat.cast_zero]
    norm_num
  | succ k ih =>
    intro hk
    have hk99 : k ≤ 99 := by omega
    have hk98 : (k : ℝ) ≤ 98 := by exact_mod_cast (by omega : k ≤ 98)
    rw [Function.iterate_succ_apply', ih hk99]
    have hop : (0 : ℝ) < 1 - 0.01 * (k : ℝ) - 0.01 := by nlinarith
    simp only [updateTexts, stepText, List.map_cons, List.map_nil, List.filter_cons,
      List.filter_nil, decide_eq_true_eq]
    rw [if_pos hop]
    push_cast
    norm_num
    constructor
    · ring
    constructor
    · ring
    · ring

/-- C7: a floating text created with opacity 1 and scale 1 at `(x0, y0)`
has state `opacity = 1 - 0.01 k`, `scale = 1 + 0.005 k`, `y = y0 - k`
after `k ≤ 99` render-tick updates, and is removed at the 100th update
(and stays removed), i.e. exactly when its opacity first reaches 0. -/
theorem claim_c7 (id0 x0 y0 : ℝ) (k : ℕ) (hk : k ≤ 99) :
    updateTexts^[k] [⟨id0, x0, y0, 1, 1⟩] =
      [⟨id0, x0, y0 - (k : ℝ), 1 - 0.01 * (k : ℝ), 1 + 0.005 * (k : ℝ)⟩] ∧
    updateTexts^[100] [⟨id0, x0, y0, 1, 1⟩] = [] ∧
    (∀ m : ℕ, 100 ≤ m → updateTexts^[m] [⟨id0, x0, y0, 1, 1⟩] = []) := by
  have h100 : updateTexts^[100] [(⟨id0, x0, y0, 1, 1⟩ : FloatingText)] = [] := by
    have h99 := updateTexts_iterate id0 x0 y0 99 (by norm_num)
    have : (100 : ℕ) = 99 + 1 := by norm_num
    rw [this, Function.iterate_succ_apply', h99]
    simp only [updateTexts, stepText, List.map_cons, List.map_nil, List.filter_cons,
      List.filter_nil, decide_eq_true_eq]
    rw [if_neg (by push_cast; norm_num)]
  refine ⟨updateTexts_iterate id0 x0 y0 k hk, h100, ?_⟩
  intro m hm
  obtain ⟨j, rfl⟩ : ∃ j, m = j + 100 := ⟨m - 100, by omega⟩
  rw [Function.iterate_add_apply, h100]
  exact Function.iterate_fixed rfl j

/-- C7 witness: the theorem at `k = 2` for a text spawned at the
origin. -/
theorem claim_c7_witness :
    (2 ≤ 99) ∧
    (updateTexts^[2] [⟨0, 0, 0, 1, 1⟩] =
        [⟨0, 0, 0 - ((2 : ℕ) : ℝ), 1 - 0.01 * ((2 : ℕ) : ℝ), 1 + 0.005 * ((2 : ℕ) : ℝ)⟩] ∧
      updateTexts^[100] [⟨0, 0, 0, 1, 1⟩] = [] ∧
      (∀ m : ℕ, 100 ≤ m → updateTexts^[m] [⟨0, 0, 0, 1, 1⟩] = [])) :=
  ⟨by norm_num, claim_c7 0 0 0 2 (by norm_num)⟩

/-- C10: after every render-tick update of the overlay list, every
remaining floating text has opacity strictly greater than 0. -/
theorem claim_c10 (l : List FloatingText) (t : FloatingText)
    (ht : t ∈ updateTexts l) : 0 < t.opacity := by
  simp only [updateTexts, List.mem_filter, decide_eq_true_eq] at ht
  exact ht.2

/-- C10 witness: a text one tick old is retained with opacity `0.99`,
and that opacity is positive by the theorem. -/
theorem claim_c10_witness :
    ((⟨5, 3, -1, 1 - 0.01, 1 + 0.005⟩ : FloatingText) ∈ updateTexts [⟨5, 3, 0, 1, 1⟩]) ∧
    (0 : ℝ) < (⟨5, 3, -1, 1 - 0.01, 1 + 0.005⟩ : FloatingText).opacity :=
  ⟨by simp [updateTexts, stepText, List.filter]; norm_num,
   claim_c10 [⟨5, 3, 0, 1, 1⟩] ⟨5, 3, -1, 1 - 0.01, 1 + 0.005⟩
     (by simp [updateTexts, stepText, List.filter]; norm_num)⟩

/-! ### Claim C8: the sound trigger is a no-op without a running context -/

/-- C8: whenever the beat-sound trigger is invoked while the audio
context is absent or not in the running state, it schedules nothing. -/
theorem claim_c8 (a : Option AudioCtx)
    (h : ∀ x : AudioCtx, a = some x → x.state ≠ AudioState.running) :
    playHeartbeatSound a = [] := by
  match a with
  | none => rfl
  | some ctx =>
    have hx := h ctx rfl
    match hst : ctx.state with
    | AudioState.running => exact absurd hst hx
    | AudioState.suspended => simp [playHeartbeatSound, hst]
    | AudioState.closed => simp [playHeartbeatSound, hst]

/-- C8 witness: the theorem applied to the absent audio context. -/
theorem claim_c8_witness :
    (∀ x : AudioCtx, (none : Option AudioCtx) = some x → x.state ≠ AudioState.running) ∧
    playHeartbeatSound none = [] :=
  ⟨fun x hx => absurd hx (by simp),
   claim_c8 none (fun x hx => absurd hx (by simp))⟩

/-! ### Claims C5 and C6: the per-point displacement functions -/

/-- The force denominators differ: `25 ^ 0.42 = 5 ^ 0.84`, which is
strictly larger than `5 ^ 0.42`. -/
theorem rpow_base25_gt :
    (5 : ℝ) ^ (0.42 : ℝ) < (25 : ℝ) ^ (0.42 : ℝ) := by
  have h25 : (25 : ℝ) ^ (0.42 : ℝ) = (5 : ℝ) ^ (0.84 : ℝ) := by
    rw [show (25 : ℝ) = 5 ^ ((2 : ℕ) : ℝ) by
        rw [Real.rpow_natCast]; norm_num]
    rw [← Real.rpow_mul (by norm_num : (0 : ℝ) ≤ 5)]
    norm_num
  rw [h25]
  exact (Real.rpow_lt_rpow_left_iff (by norm_num)).mpr (by norm_num)

/-- C5 counterexample: at the point `(4, 3)` with the canvas center at
the origin, unit ratio and zero noise, `calcPosition` does not return
the value that the claim's formula `force = 1/distance^0.42` (distance
from the canvas center) prescribes: the code divides by the squared
distance raised to `0.42`. -/
theorem claim_c5_counterexample :
    (calcPosition ctxHalf 4 3 1 0).1.1 ≠ (calcPositionClaimed ctxHalf 4 3 1 0).1.1 := by
  have hcx : ctxHalf.cx = 0 := by norm_num [ctxHalf, Ctx.cx]
  have hcy : ctxHalf.cy = 0 := by norm_num [ctxHalf, Ctx.cy]
  have hr0 : ctxHalf.r 0 = 1 / 2 := rfl
  have h1 : (calcPosition ctxHalf 4 3 1 0).1.1 = 4 - 4 / (25 : ℝ) ^ (0.42 : ℝ) := by
    show 4 - (1 * (1 / (((4 - ctxHalf.cx) ^ 2 + (3 - ctxHalf.cy) ^ 2) ^ (0.42 : ℝ))) *
        (4 - ctxHalf.cx) + (ctxHalf.r 0 * 2 - 1)) = 4 - 4 / (25 : ℝ) ^ (0.42 : ℝ)
    rw [hcx, hcy, hr0]
    norm_num
    ring
  have h2 : (calcPositionClaimed ctxHalf 4 3 1 0).1.1 = 4 - 4 / (5 : ℝ) ^ (0.42 : ℝ) := by
    show 4 - (1 * (1 / (Real.sqrt ((4 - ctxHalf.cx) ^ 2 + (3 - ctxHalf.cy) ^ 2) ^ (0.42 : ℝ))) *
        (4 - ctxHalf.cx) + (ctxHalf.r 0 * 2 - 1)) = 4 - 4 / (5 : ℝ) ^ (0.42 : ℝ)
    rw [hcx, hcy, hr0]
    rw [show ((4 : ℝ) - 0) ^ 2 + ((3 : ℝ) - 0) ^ 2 = 5 ^ 2 by norm_num,
      Real.sqrt_sq (by norm_num : (0 : ℝ) ≤ 5)]
    norm_num
    ring
  rw [h1, h2]
  have hBv : (0 : ℝ) < (5 : ℝ) ^ (0.42 : ℝ) := Real.rpow_pos_of_pos (by norm_num) _
  have hA : (0 : ℝ) < (25 : ℝ) ^ (0.42 : ℝ) := Real.rpow_pos_of_pos (by norm_num) _
  have hlt : (5 : ℝ) ^ (0.42 : ℝ) < (25 : ℝ) ^ (0.42 : ℝ) := rpow_base25_gt
  have hdiv : (4 : ℝ) / (25 : ℝ) ^ (0.42 : ℝ) < 4 / (5 : ℝ) ^ (0.42 : ℝ) :=
    (div_lt_div_left (by norm_num) hA hBv).mpr hlt
  intro heq
  have : (4 : ℝ) / (25 : ℝ) ^ (0.42 : ℝ) = 4 / (5 : ℝ) ^ (0.42 : ℝ) := by linarith
  linarith

/-- C5 amended: `calcPosition(x, y, ratio)` computes
`force = 1 / (squared distance from the canvas center) ^ 0.42` and
returns the point displaced by `ratio · force · (point − center)` plus
independent uniform noise in `[-1, 1]` per axis, subtracted from the
original coordinates. -/
theorem claim_c5_amended (c : Ctx) (x y rat : ℝ) (i : ℕ)
    (hr : ∀ m, 0 ≤ c.r m ∧ c.r m < 1) :
    ∃ nx ny : ℝ, (-1 ≤ nx ∧ nx ≤ 1) ∧ (-1 ≤ ny ∧ ny ≤ 1) ∧
      calcPosition c x y rat i =
        ((x - (rat * (1 / (((x - c.cx) ^ 2 + (y - c.cy) ^ 2) ^ (0.42 : ℝ))) * (x - c.cx) + nx),
          y - (rat * (1 / (((x - c.cx) ^ 2 + (y - c.cy) ^ 2) ^ (0.42 : ℝ))) * (y - c.cy) + ny)),
         i + 2) := by
  obtain ⟨h0x, h1x⟩ := hr i
  obtain ⟨h0y, h1y⟩ := hr (i + 1)
  exact ⟨c.r i * 2 - 1, c.r (i + 1) * 2 - 1,
    ⟨by linarith, by linarith⟩, ⟨by linarith, by linarith⟩, rfl⟩

/-- C5 witness: the amended theorem at `ctxZero`, point `(4, 3)`, unit
ratio, stream position 0. -/
theorem claim_c5_witness :
    (∀ m, 0 ≤ ctxZero.r m ∧ ctxZero.r m < 1) ∧
    (∃ nx ny : ℝ, (-1 ≤ nx ∧ nx ≤ 1) ∧ (-1 ≤ ny ∧ ny ≤ 1) ∧
      calcPosition ctxZero 4 3 1 0 =
        ((4 - (1 * (1 / (((4 - ctxZero.cx) ^ 2 + (3 - ctxZero.cy) ^ 2) ^ (0.42 : ℝ))) *
            (4 - ctxZero.cx) + nx),
          3 - (1 * (1 / (((4 - ctxZero.cx) ^ 2 + (3 - ctxZero.cy) ^ 2) ^ (0.42 : ℝ))) *
            (3 - ctxZero.cy) + ny)),
         0 + 2)) :=
  ⟨fun m => ⟨le_rfl, one_pos⟩,
   claim_c5_amended ctxZero 4 3 1 0 (fun m => ⟨le_rfl, one_pos⟩)⟩

/-- `shrink` in closed form: because the force is negative and then
subtracted, the point moves away from the canvas center, by
`ratio · (point − center) / distSq ^ 0.6`. -/
theorem shrink_eq (c : Ctx) (x y rat : ℝ) :
    shrink c x y rat =
      (x + rat * (x - c.cx) / (((x - c.cx) ^ 2 + (y - c.cy) ^ 2) ^ (0.6 : ℝ)),
       y + rat * (y - c.cy) / (((x - c.cx) ^ 2 + (y - c.cy) ^ 2) ^ (0.6 : ℝ))) := by
  show (x - rat * (-1 / (((x - c.cx) ^ 2 + (y - c.cy) ^ 2) ^ (0.6 : ℝ))) * (x - c.cx),
        y - rat * (-1 / (((x - c.cx) ^ 2 + (y - c.cy) ^ 2) ^ (0.6 : ℝ))) * (y - c.cy)) = _
  refine Prod.ext ?_ ?_ <;> simp <;> ring

/-- C6 counterexample: at the point `(4, 3)` with the canvas center at
the origin and positive ratio `1`, `shrink` strictly increases both
coordinates and the squared distance from the center: it pushes the
point away from the canvas center instead of pulling it toward the
center as the claim states (the exponent is also applied to the squared
distance, not the distance). -/
theorem claim_c6_counterexample :
    4 < (shrink ctxHalf 4 3 1).1 ∧ 3 < (shrink ctxHalf 4 3 1).2 ∧
    4 ^ 2 + 3 ^ 2 < (shrink ctxHalf 4 3 1).1 ^ 2 + (shrink ctxHalf 4 3 1).2 ^ 2 := by
  have hcx : ctxHalf.cx = 0 := by norm_num [ctxHalf, Ctx.cx]
  have hcy : ctxHalf.cy = 0 := by norm_num [ctxHalf, Ctx.cy]
  have hs := shrink_eq ctxHalf 4 3 1
  rw [hcx, hcy] at hs
  have h25 : ((4 : ℝ) - 0) ^ 2 + ((3 : ℝ) - 0) ^ 2 = 25 := by norm_num
  rw [h25] at hs
  have hpos : (0 : ℝ) < (25 : ℝ) ^ (0.6 : ℝ) := Real.rpow_pos_of_pos (by norm_num) _
  have h1 : (shrink ctxHalf 4 3 1).1 = 4 + 4 / (25 : ℝ) ^ (0.6 : ℝ) := by
    rw [hs]; norm_num
  have h2 : (shrink ctxHalf 4 3 1).2 = 3 + 3 / (25 : ℝ) ^ (0.6 : ℝ) := by
    rw [hs]; norm_num
  have hq : (0 : ℝ) < 4 / (25 : ℝ) ^ (0.6 : ℝ) := by positivity
  have hq2 : (0 : ℝ) < 3 / (25 : ℝ) ^ (0.6 : ℝ) := by positivity
  refine ⟨by rw [h1]; linarith, by rw [h2]; linarith, ?_⟩
  rw [h1, h2]
  nlinarith [hq, hq2]

/-- C6 amended: every halo point of a generated frame is obtained by
sampling the heart curve at a fresh random parameter, applying
`shrink(x, y, haloRadius)` — which pushes the point away from the canvas
center by `haloRadius · (point − center) / distSq ^ 0.6`, the force
`-1 / distSq ^ 0.6` being computed from the squared distance — then
adding independent uniform jitter in `[-60, 60]` on each axis, with
size 1 when the size draw is below `0.66` and size 2 otherwise. -/
theorem claim_c6_amended (c : Ctx) (rad : ℝ) (hr : ∀ m, 0 ≤ c.r m ∧ c.r m < 1) :
    ∀ (n i : ℕ), ∀ pt ∈ (genHalo c rad n i).1, ∃ t jx jy : ℝ,
      (-60 ≤ jx ∧ jx ≤ 60) ∧ (-60 ≤ jy ∧ jy ≤ 60) ∧
      (pt.size = 1 ∨ pt.size = 2) ∧
      pt.x = (heartFunction c t).1 + rad * ((heartFunction c t).1 - c.cx) /
          (((heartFunction c t).1 - c.cx) ^ 2 + ((heartFunction c t).2 - c.cy) ^ 2) ^ (0.6 : ℝ)
          + jx ∧
      pt.y = (heartFunction c t).2 + rad * ((heartFunction c t).2 - c.cy) /
          (((heartFunction c t).1 - c.cx) ^ 2 + ((heartFunction c t).2 - c.cy) ^ 2) ^ (0.6 : ℝ)
          + jy := by
  intro n
  induction n with
  | zero => intro i pt h; simp [genHalo] at h
  | succ n ih =>
    intro i pt h
    simp only [genHalo, List.mem_cons] at h
    rcases h with h | h
    · subst h
      obtain ⟨hjx0, hjx1⟩ := hr (i + 1)
      obtain ⟨hjy0, hjy1⟩ := hr (i + 2)
      refine ⟨c.r i * (2 * Real.pi), c.r (i + 1) * 120 - 60, c.r (i + 2) * 120 - 60,
        ⟨by linarith, by linarith⟩, ⟨by linarith, by linarith⟩, ?_, ?_, ?_⟩
      · by_cases hc : c.r (i + 3) < 0.66 <;> simp [hc]
      · rw [shrink_eq]
      · rw [shrink_eq]
    · exact ih _ pt h

/-- C6 witness: the amended theorem at `ctxZero` with halo radius `5`,
two halo points, stream position 0. -/
theorem claim_c6_witness :
    (∀ m, 0 ≤ ctxZero.r m ∧ ctxZero.r m < 1) ∧
    (∀ pt ∈ (genHalo ctxZero 5 2 0).1, ∃ t jx jy : ℝ,
      (-60 ≤ jx ∧ jx ≤ 60) ∧ (-60 ≤ jy ∧ jy ≤ 60) ∧
      (pt.size = 1 ∨ pt.size = 2) ∧
      pt.x = (heartFunction ctxZero t).1 + 5 * ((heartFunction ctxZero t).1 - ctxZero.cx) /
          (((heartFunction ctxZero t).1 - ctxZero.cx) ^ 2 +
            ((heartFunction ctxZero t).2 - ctxZero.cy) ^ 2) ^ (0.6 : ℝ) + jx ∧
      pt.y = (heartFunction ctxZero t).2 + 5 * ((heartFunction ctxZero t).2 - ctxZero.cy) /
          (((heartFunction ctxZero t).1 - ctxZero.cx) ^ 2 +
            ((heartFunction ctxZero t).2 - ctxZero.cy) ^ 2) ^ (0.6 : ℝ) + jy) :=
  ⟨fun m => ⟨le_rfl, one_pos⟩,
   claim_c6_amended ctxZero 5 (fun m => ⟨le_rfl, one_pos⟩) 2 0⟩
